import Mathlib

/-!
Verification of the hierarchical authorization and membership model of a
multi-tenant task/project tracker.

The definitions below are a shallow embedding of the JavaScript source:

* `src/models/Team.js` — the team schema methods (`isMember`,
  `getMemberRole`, `canUserManage`, `addMember`, `removeMember`,
  `updateMemberRole`);
* the project schema methods (`isMember`, `getMemberRole`, `canUserManage`);
* `src/middleware/auth.js` — the access guards (`requireTeamMember`,
  `requireTeamManager`, `requireProjectMember`, `requireProjectManager`),
  embedded as pure decision functions over an already-loaded entity (the
  middleware first loads the entity and fails with 404 when it is absent;
  the guards here model the decision taken once the entity exists);
* `src/controllers/teams.js` — the controller-level wrappers
  (`removeMember`, `leaveTeam`, `updateMemberRole`, `deleteTeam`), which add
  the owner-protection checks and the store-level cascades.

MongoDB ObjectIds are modelled as `Nat`; dates and cosmetic fields
(joinedAt, invitedBy, names, colors, statistics) are omitted — no method
relevant to authorization or membership reads them.
-/

abbrev UserId := Nat
abbrev TeamId := Nat

/-- Global role of a user (`role` field of the user schema). -/
inductive GlobalRole where
  | admin
  | team_manager
  | employee
  | client
deriving DecidableEq, Repr

/-- The authenticated actor attached to a request (`req.user`). -/
structure Actor where
  id : UserId
  role : GlobalRole
deriving DecidableEq, Repr

/-- Team-level membership role (`members.role` enum of the team schema). -/
inductive TeamRole where
  | owner
  | manager
  | member
deriving DecidableEq, Repr

/-- Team-level permission bundle (`members.permissions` of the team schema). -/
structure TeamPermissions where
  canInviteMembers : Bool
  canManageProjects : Bool
  canViewAllTasks : Bool
  canManageTasks : Bool
deriving DecidableEq, Repr

/-- One entry of `team.members`. -/
structure TeamMember where
  user : UserId
  role : TeamRole
  permissions : TeamPermissions
deriving DecidableEq, Repr

/-- The team document, restricted to the fields the membership and
authorization methods read. -/
structure Team where
  owner : UserId
  members : List TeamMember
deriving DecidableEq, Repr

/-- Project-level membership role (`members.role` enum of the project
schema). -/
inductive ProjectRole where
  | lead
  | developer
  | designer
  | tester
  | client
deriving DecidableEq, Repr

/-- Project-level permission bundle (`members.permissions` of the project
schema). -/
structure ProjectPermissions where
  canEditProject : Bool
  canManageTasks : Bool
  canInviteMembers : Bool
deriving DecidableEq, Repr

/-- One entry of `project.members`. -/
structure ProjectMember where
  user : UserId
  role : ProjectRole
  permissions : ProjectPermissions
deriving DecidableEq, Repr

/-- The `visibility` enum of the project schema
(`public` and `private` are Lean keywords, hence the `vis` markers). -/
inductive Visibility where
  | visPublic
  | visPrivate
  | visTeam
deriving DecidableEq, Repr

/-- The project document, restricted to the fields the guards and membership
methods read, plus `visibility` and `isArchived` (present in the schema but
never consulted by any authorization path).  The middleware populates the
`team` reference before deciding, so `team` carries the full team document
here. -/
structure Project where
  team : Option Team
  owner : UserId
  visibility : Visibility
  members : List ProjectMember
  isArchived : Bool
deriving DecidableEq, Repr

/-! ### Team schema methods (src/models/Team.js) -/

/-- `teamSchema.methods.isMember`. -/
def Team.isMember (t : Team) (userId : UserId) : Bool :=
  t.members.any fun m => m.user == userId

/-- `teamSchema.methods.getMemberRole`. -/
def Team.getMemberRole (t : Team) (userId : UserId) : Option TeamRole :=
  (t.members.find? fun m => m.user == userId).map fun m => m.role

/-- `teamSchema.methods.canUserManage`: the owner, or a member whose record
has role `manager`. -/
def Team.canUserManage (t : Team) (userId : UserId) : Bool :=
  if t.owner == userId then
    true
  else
    match t.members.find? fun m => m.user == userId with
    | some m => m.role == TeamRole.manager
    | none => false

/-! ### Project schema methods (projectSchema in src/models/Task.js) -/

/-- `projectSchema.methods.isMember`. -/
def Project.isMember (p : Project) (userId : UserId) : Bool :=
  p.members.any fun m => m.user == userId

/-- `projectSchema.methods.getMemberRole`. -/
def Project.getMemberRole (p : Project) (userId : UserId) : Option ProjectRole :=
  (p.members.find? fun m => m.user == userId).map fun m => m.role

/-- `projectSchema.methods.canUserManage`: the owner, or a member whose
record has role `lead` or the `canEditProject` permission. -/
def Project.canUserManage (p : Project) (userId : UserId) : Bool :=
  if p.owner == userId then
    true
  else
    match p.members.find? fun m => m.user == userId with
    | some m => m.role == ProjectRole.lead || m.permissions.canEditProject
    | none => false

/-! ### Access guards (src/middleware/auth.js)

Each guard is modelled as the decision it takes once the target entity has
been loaded (entity absence is a prior 404, outside the decision). -/

/-- Outcome of a guard: pass control on, or reply with an error status. -/
inductive GuardResult where
  | allow
  | deny (status : Nat) (msg : String)
deriving DecidableEq, Repr

def msgNotMemberTeam : String := "You are not a member of this team"

def msgNotAuthorizedManageTeam : String := "You are not authorized to manage this team"

def msgNotAuthorizedProject : String := "You are not authorized to access this project"

def msgNotAuthorizedManageProject : String := "You are not authorized to manage this project"

/-- `requireTeamMember` (team read access). -/
def requireTeamMember (user : Actor) (team : Team) : GuardResult :=
  if user.role = GlobalRole.admin then
    GuardResult.allow
  else if !(team.isMember user.id) then
    GuardResult.deny 403 msgNotMemberTeam
  else
    GuardResult.allow

/-- `requireTeamManager` (team manage access). -/
def requireTeamManager (user : Actor) (team : Team) : GuardResult :=
  if user.role = GlobalRole.admin then
    GuardResult.allow
  else if !(team.canUserManage user.id) then
    GuardResult.deny 403 msgNotAuthorizedManageTeam
  else
    GuardResult.allow

/-- `requireProjectMember` (project read access): project member or member
of the project team; the project owner field is not consulted. -/
def requireProjectMember (user : Actor) (project : Project) : GuardResult :=
  if user.role = GlobalRole.admin then
    GuardResult.allow
  else
    let isProjectMember := project.isMember user.id
    let isTeamMember :=
      match project.team with
      | some t => t.isMember user.id
      | none => false
    if !isProjectMember && !isTeamMember then
      GuardResult.deny 403 msgNotAuthorizedProject
    else
      GuardResult.allow

/-- `requireProjectManager` (project manage access): project-level
`canUserManage` or team-level `canUserManage` on the project team. -/
def requireProjectManager (user : Actor) (project : Project) : GuardResult :=
  if user.role = GlobalRole.admin then
    GuardResult.allow
  else
    let canManageProject := project.canUserManage user.id
    let canManageTeam :=
      match project.team with
      | some t => t.canUserManage user.id
      | none => false
    if !canManageProject && !canManageTeam then
      GuardResult.deny 403 msgNotAuthorizedManageProject
    else
      GuardResult.allow

/-! ### Team membership mutators (src/models/Team.js) -/

/-- Outcome of a model mutator or controller action: the updated entity, or
the error it raised. -/
inductive MResult (ε : Type) (α : Type) where
  | ok (value : α)
  | error (err : ε)
deriving DecidableEq, Repr

def msgAlreadyMember : String := "User is already a member of this team"

def msgNotAMember : String := "User is not a member of this team"

/-- The permission bundle the `addMember` switch assigns per role. -/
def addMemberPermissions : TeamRole → TeamPermissions
  | TeamRole.owner => ⟨true, true, true, true⟩
  | TeamRole.manager => ⟨true, true, true, true⟩
  | TeamRole.member => ⟨false, false, true, false⟩

/-- `teamSchema.methods.addMember`: throws when the user is already a
member; otherwise appends a record whose bundle is derived from the role. -/
def Team.addMember (t : Team) (userId : UserId) (role : TeamRole) :
    MResult String Team :=
  if t.isMember userId then
    MResult.error msgAlreadyMember
  else
    MResult.ok { t with members := t.members ++ [⟨userId, role, addMemberPermissions role⟩] }

/-- `teamSchema.methods.removeMember`: unconditionally filters out every
record matching the user id; never throws. -/
def Team.removeMember (t : Team) (userId : UserId) : Team :=
  { t with members := t.members.filter fun m => !(m.user == userId) }

/-- The in-place update the `updateMemberRole` switch performs on the found
record: the role is always overwritten; the bundle is recomputed for
`manager` and `member`, and the switch has no `owner` case, so for `owner`
the previous bundle is kept. -/
def applyRoleUpdate (m : TeamMember) : TeamRole → TeamMember
  | TeamRole.manager => { m with role := TeamRole.manager, permissions := ⟨true, true, true, true⟩ }
  | TeamRole.member => { m with role := TeamRole.member, permissions := ⟨false, false, true, false⟩ }
  | TeamRole.owner => { m with role := TeamRole.owner }

/-- The permission bundle a record ends up with after the `updateMemberRole`
switch, as a function of its previous bundle and the new role: the fixed
table entry for `manager` and `member`, the previous bundle for `owner`
(which the switch does not handle). -/
def roleUpdatedPermissions (old : TeamPermissions) : TeamRole → TeamPermissions
  | TeamRole.owner => old
  | TeamRole.manager => TeamPermissions.mk true true true true
  | TeamRole.member => TeamPermissions.mk false false true false

/-- The effect of mutating, in place, the record `Array.prototype.find`
returns: only the first matching record is rewritten. -/
def updateFirst (userId : UserId) (newRole : TeamRole) :
    List TeamMember → List TeamMember
  | [] => []
  | m :: rest =>
    if m.user == userId then
      applyRoleUpdate m newRole :: rest
    else
      m :: updateFirst userId newRole rest

/-- `teamSchema.methods.updateMemberRole`: throws when no record matches;
otherwise rewrites the found record per `applyRoleUpdate`. -/
def Team.updateMemberRole (t : Team) (userId : UserId) (newRole : TeamRole) :
    MResult String Team :=
  if t.members.any (fun m => m.user == userId) then
    MResult.ok { t with members := updateFirst userId newRole t.members }
  else
    MResult.error msgNotAMember

/-! ### Controllers (src/controllers/teams.js)

Each controller is modelled from the point where the team document has been
loaded (absence is a prior 404).  An error thrown by a model method reaches
the client through the async handler as a 500 with the thrown message. -/

/-- A controller-level error response: HTTP status plus message. -/
structure CtrlError where
  status : Nat
  msg : String
deriving DecidableEq, Repr

def msgCannotRemoveOwner : String := "Cannot remove team owner"

def msgCannotChangeOwnerRole : String := "Cannot change team owner role"

def msgOwnerCannotLeave : String := "Team owner cannot leave team. Transfer ownership first."

/-- `exports.removeMember`: refuses to touch the owner, then delegates to
the model `removeMember`. -/
def controllerRemoveMember (team : Team) (userId : UserId) :
    MResult CtrlError Team :=
  if team.owner == userId then
    MResult.error ⟨400, msgCannotRemoveOwner⟩
  else
    MResult.ok (team.removeMember userId)

/-- `exports.leaveTeam`: the owner cannot leave; anyone else is removed via
the model `removeMember`. -/
def controllerLeaveTeam (team : Team) (userId : UserId) :
    MResult CtrlError Team :=
  if team.owner == userId then
    MResult.error ⟨400, msgOwnerCannotLeave⟩
  else
    MResult.ok (team.removeMember userId)

/-- `exports.updateMemberRole`: refuses to change the owner, then delegates
to the model `updateMemberRole`. -/
def controllerUpdateMemberRole (team : Team) (userId : UserId) (newRole : TeamRole) :
    MResult CtrlError Team :=
  if team.owner == userId then
    MResult.error ⟨400, msgCannotChangeOwnerRole⟩
  else
    match team.updateMemberRole userId newRole with
    | MResult.ok t2 => MResult.ok t2
    | MResult.error e => MResult.error ⟨500, e⟩

/-! ### Team deletion cascade (exports.deleteTeam in src/controllers/teams.js)

`deleteTeam` runs two store-wide updates before deleting the team document:
`User.updateMany({teams.team: id}, {$pull the entry, $unset activeTeam})`
and `Project.deleteMany({team: id})`.  The stores are modelled as lists of
the stored documents, with the team reference kept as an id. -/

/-- A stored project document: its id and its optional team reference. -/
structure StoredProject where
  pid : Nat
  team : Option TeamId
deriving DecidableEq, Repr

/-- One entry of the denormalized `teams` list of a user document. -/
structure UserTeamEntry where
  team : TeamId
  role : TeamRole
deriving DecidableEq, Repr

/-- A stored user document: its id, denormalized team list, active team. -/
structure StoredUser where
  uid : UserId
  teams : List UserTeamEntry
  activeTeam : Option TeamId
deriving DecidableEq, Repr

/-- The slice of the database `deleteTeam` touches. -/
structure AppState where
  projects : List StoredProject
  users : List StoredUser
deriving DecidableEq, Repr

/-- The store-level effect of `exports.deleteTeam` on a matched user:
`$pull` removes every entry for the team and `$unset` clears `activeTeam`;
users without an entry for the team are not matched by the filter. -/
def deleteTeamUserUpdate (tid : TeamId) (u : StoredUser) : StoredUser :=
  if u.teams.any (fun e => e.team == tid) then
    { u with
      teams := u.teams.filter fun e => !(e.team == tid),
      activeTeam := none }
  else
    u

/-- The store-level effect of `exports.deleteTeam`: update every user, then
delete every project whose `team` field references the team. -/
def deleteTeamCascade (s : AppState) (tid : TeamId) : AppState :=
  { projects := s.projects.filter fun p => !(p.team == some tid),
    users := s.users.map (deleteTeamUserUpdate tid) }

/-! ### Helper lemmas -/

/-- Membership by `any` over a team member list is existence of a matching
record. -/
lemma team_isMember_iff (t : Team) (u : UserId) :
    t.isMember u = true ↔ ∃ m ∈ t.members, m.user = u := by
  simp [Team.isMember, List.any_eq_true, beq_iff_eq]

/-- Membership by `any` over a project member list is existence of a
matching record. -/
lemma project_isMember_iff (p : Project) (u : UserId) :
    p.isMember u = true ↔ ∃ m ∈ p.members, m.user = u := by
  simp [Project.isMember, List.any_eq_true, beq_iff_eq]

/-- When the mapped keys are pairwise distinct, `find?` on key equality
returns exactly the record holding that key. -/
lemma find_key_eq_some {α : Type} (key : α → Nat) (ms : List α) (u : Nat)
    (hnd : (ms.map key).Nodup) (m0 : α) (h0 : m0 ∈ ms) (hu : key m0 = u) :
    ms.find? (fun m => key m == u) = some m0 := by
  induction ms with
  | nil => cases h0
  | cons a rest ih =>
    rw [List.map_cons, List.nodup_cons] at hnd
    cases h0 with
    | head =>
      apply List.find?_cons_of_pos
      simp [hu]
    | tail _ hrest =>
      have hau : key a ≠ u := by
        intro he
        exact hnd.1 (he ▸ hu ▸ List.mem_map_of_mem key hrest)
      rw [List.find?_cons_of_neg, ih hnd.2 hrest]
      simp [hau]

/-- Characterization of team-level `canUserManage` under the per-user
uniqueness invariant of the member list. -/
lemma team_canUserManage_iff (t : Team) (u : UserId)
    (hnd : (t.members.map fun m => m.user).Nodup) :
    t.canUserManage u = true ↔
      t.owner = u ∨ ∃ m ∈ t.members, m.user = u ∧ m.role = TeamRole.manager := by
  by_cases howner : t.owner = u
  · simp [Team.canUserManage, howner]
  · simp only [Team.canUserManage, beq_iff_eq, if_neg howner]
    cases hfind : t.members.find? (fun m => m.user == u) with
    | some m =>
      simp only [beq_iff_eq]
      constructor
      · intro hrole
        refine Or.inr ⟨m, List.mem_of_find?_eq_some hfind, ?_, hrole⟩
        have := List.find?_some hfind
        simpa [beq_iff_eq] using this
      · rintro (h | ⟨m1, hm1, hu1, hr1⟩)
        · exact absurd h howner
        · have := find_key_eq_some (fun m => m.user) t.members u hnd m1 hm1 hu1
          rw [hfind] at this
          cases this
          exact hr1
    | none =>
      simp only
      constructor
      · intro h
        cases h
      · rintro (h | ⟨m1, hm1, hu1, hr1⟩)
        · exact absurd h howner
        · have := find_key_eq_some (fun m => m.user) t.members u hnd m1 hm1 hu1
          rw [hfind] at this
          cases this

/-- Characterization of project-level `canUserManage` under the per-user
uniqueness invariant of the member list. -/
lemma project_canUserManage_iff (p : Project) (u : UserId)
    (hnd : (p.members.map fun m => m.user).Nodup) :
    p.canUserManage u = true ↔
      p.owner = u ∨ ∃ m ∈ p.members, m.user = u ∧
        (m.role = ProjectRole.lead ∨ m.permissions.canEditProject = true) := by
  by_cases howner : p.owner = u
  · simp [Project.canUserManage, howner]
  · simp only [Project.canUserManage, beq_iff_eq, if_neg howner]
    cases hfind : p.members.find? (fun m => m.user == u) with
    | some m =>
      constructor
      · intro hrole
        refine Or.inr ⟨m, List.mem_of_find?_eq_some hfind, ?_, ?_⟩
        · have := List.find?_some hfind
          simpa [beq_iff_eq] using this
        · simpa [Bool.or_eq_true, beq_iff_eq] using hrole
      · rintro (h | ⟨m1, hm1, hu1, hr1⟩)
        · exact absurd h howner
        · have := find_key_eq_some (fun m => m.user) p.members u hnd m1 hm1 hu1
          rw [hfind] at this
          cases this
          simpa [Bool.or_eq_true, beq_iff_eq] using hr1
    | none =>
      simp only
      constructor
      · intro h
        cases h
      · rintro (h | ⟨m1, hm1, hu1, hr1⟩)
        · exact absurd h howner
        · have := find_key_eq_some (fun m => m.user) p.members u hnd m1 hm1 hu1
          rw [hfind] at this
          cases this

/-! ### Claim theorems -/

/-- C1 (counterexample): the claim asserts that the project owner is always
granted project read access, but `requireProjectMember` never consults the
`owner` field: a non-admin owner of a team-less project with an empty member
list is denied. -/
theorem c1_counterexample :
    (Project.mk none 5 Visibility.visTeam [] false).owner =
      (Actor.mk 5 GlobalRole.employee).id ∧
    (Actor.mk 5 GlobalRole.employee).role ≠ GlobalRole.admin ∧
    requireProjectMember (Actor.mk 5 GlobalRole.employee)
      (Project.mk none 5 Visibility.visTeam [] false) =
      GuardResult.deny 403 msgNotAuthorizedProject := by
  decide

/-- C1 (amended): project-level read access is granted if and only if the
actor is a global admin, or has a membership record in `project.members`, or
the project has a team and the actor has a membership record in that team;
in particular team membership alone suffices.  The owner field is not
consulted by the guard. -/
theorem c1_read_iff (a : Actor) (p : Project) :
    requireProjectMember a p = GuardResult.allow ↔
      (a.role = GlobalRole.admin ∨
       (∃ m ∈ p.members, m.user = a.id) ∨
       (∃ t, p.team = some t ∧ ∃ m ∈ t.members, m.user = a.id)) := by
  have hmain : requireProjectMember a p = GuardResult.allow ↔
      (a.role = GlobalRole.admin ∨ p.isMember a.id = true ∨
        (∃ t, p.team = some t ∧ t.isMember a.id = true)) := by
    by_cases hadmin : a.role = GlobalRole.admin
    · simp [requireProjectMember, hadmin]
    · cases hteam : p.team with
      | none =>
        cases hpm : p.isMember a.id <;>
          simp [requireProjectMember, hadmin, hteam, hpm]
      | some t =>
        cases hpm : p.isMember a.id with
        | true => simp [requireProjectMember, hadmin, hteam, hpm]
        | false =>
          cases htm : t.isMember a.id <;>
            simp [requireProjectMember, hadmin, hteam, hpm, htm]
  rw [hmain]
  simp only [project_isMember_iff, team_isMember_iff]

/-- C2: project-level manage access is granted if and only if the actor is a
global admin, or the project owner, or a project member with role `lead` or
the `canEditProject` permission, or the project has a team on which the
actor holds team-level manage (owner or a `manager` record); a team manager
needs no project membership record.  Stated under the per-user uniqueness
invariant of the member lists. -/
theorem c2_manage_iff (a : Actor) (p : Project)
    (hp : (p.members.map fun m => m.user).Nodup)
    (ht : ∀ t, p.team = some t → (t.members.map fun m => m.user).Nodup) :
    requireProjectManager a p = GuardResult.allow ↔
      (a.role = GlobalRole.admin ∨ p.owner = a.id ∨
       (∃ m ∈ p.members, m.user = a.id ∧
         (m.role = ProjectRole.lead ∨ m.permissions.canEditProject = true)) ∨
       (∃ t, p.team = some t ∧
         (t.owner = a.id ∨
          ∃ m ∈ t.members, m.user = a.id ∧ m.role = TeamRole.manager))) := by
  have hmain : requireProjectManager a p = GuardResult.allow ↔
      (a.role = GlobalRole.admin ∨ p.canUserManage a.id = true ∨
        (∃ t, p.team = some t ∧ t.canUserManage a.id = true)) := by
    by_cases hadmin : a.role = GlobalRole.admin
    · simp [requireProjectManager, hadmin]
    · cases hteam : p.team with
      | none =>
        cases hcp : p.canUserManage a.id <;>
          simp [requireProjectManager, hadmin, hteam, hcp]
      | some t =>
        cases hcp : p.canUserManage a.id with
        | true => simp [requireProjectManager, hadmin, hteam, hcp]
        | false =>
          cases hct : t.canUserManage a.id <;>
            simp [requireProjectManager, hadmin, hteam, hcp, hct]
  rw [hmain, project_canUserManage_iff p a.id hp]
  constructor
  · rintro (h | (h | h) | ⟨t, hteq, hct⟩)
    · exact Or.inl h
    · exact Or.inr (Or.inl h)
    · exact Or.inr (Or.inr (Or.inl h))
    · rw [team_canUserManage_iff t a.id (ht t hteq)] at hct
      exact Or.inr (Or.inr (Or.inr ⟨t, hteq, hct⟩))
  · rintro (h | h | h | ⟨t, hteq, hct⟩)
    · exact Or.inl h
    · exact Or.inr (Or.inl (Or.inl h))
    · exact Or.inr (Or.inl (Or.inr h))
    · rw [← team_canUserManage_iff t a.id (ht t hteq)] at hct
      exact Or.inr (Or.inr ⟨t, hteq, hct⟩)

/-- C2 (witness): a bare team manager, with no project membership record,
may manage the project under that team. -/
theorem c2_manage_iff_witness :
    requireProjectManager (Actor.mk 3 GlobalRole.employee)
      (Project.mk
        (some (Team.mk 8 [TeamMember.mk 3 TeamRole.manager
          (TeamPermissions.mk true true true true)]))
        9 Visibility.visTeam [] false) = GuardResult.allow := by
  refine (c2_manage_iff (Actor.mk 3 GlobalRole.employee) _ (by decide) ?_).mpr ?_
  · intro t h
    have h2 : Team.mk 8 [TeamMember.mk 3 TeamRole.manager
        (TeamPermissions.mk true true true true)] = t := Option.some.inj h
    subst h2
    decide
  · refine Or.inr (Or.inr (Or.inr ⟨_, rfl, Or.inr ?_⟩))
    exact ⟨TeamMember.mk 3 TeamRole.manager (TeamPermissions.mk true true true true),
      by decide, rfl, rfl⟩

/-- C3: team-level manage access is granted if and only if the actor is a
global admin, or the team owner, or has a membership record with role
`manager`; the owner clause is independent of the member list.  Stated under
the per-user uniqueness invariant of the member list. -/
theorem c3_team_manage_iff (a : Actor) (t : Team)
    (hnd : (t.members.map fun m => m.user).Nodup) :
    requireTeamManager a t = GuardResult.allow ↔
      (a.role = GlobalRole.admin ∨ t.owner = a.id ∨
        ∃ m ∈ t.members, m.user = a.id ∧ m.role = TeamRole.manager) := by
  have hmain : requireTeamManager a t = GuardResult.allow ↔
      (a.role = GlobalRole.admin ∨ t.canUserManage a.id = true) := by
    by_cases hadmin : a.role = GlobalRole.admin
    · simp [requireTeamManager, hadmin]
    · cases hct : t.canUserManage a.id <;>
        simp [requireTeamManager, hadmin, hct]
  rw [hmain, team_canUserManage_iff t a.id hnd]

/-- C3 (witness): the owner of a team with an empty member list — so no
membership record at all for the owner — is granted team manage. -/
theorem c3_team_manage_iff_witness :
    requireTeamManager (Actor.mk 4 GlobalRole.employee) (Team.mk 4 []) =
      GuardResult.allow :=
  (c3_team_manage_iff (Actor.mk 4 GlobalRole.employee) (Team.mk 4 [])
    (by decide)).mpr (Or.inr (Or.inl rfl))

/-- C4: an actor whose global role is `admin` passes every access guard —
team read, team manage, project read, project manage — regardless of the
membership records, ownership fields, or role bundles of the entities. -/
theorem c4_admin_bypass (a : Actor) (t : Team) (p : Project)
    (h : a.role = GlobalRole.admin) :
    requireTeamMember a t = GuardResult.allow ∧
    requireTeamManager a t = GuardResult.allow ∧
    requireProjectMember a p = GuardResult.allow ∧
    requireProjectManager a p = GuardResult.allow := by
  refine ⟨?_, ?_, ?_, ?_⟩ <;>
    simp [requireTeamMember, requireTeamManager, requireProjectMember,
      requireProjectManager, h]

/-- C4 (witness): an admin who owns nothing and appears in no member list
passes all four guards on a private archived project and a foreign team. -/
theorem c4_admin_bypass_witness :
    requireTeamMember (Actor.mk 9 GlobalRole.admin) (Team.mk 0 []) =
      GuardResult.allow ∧
    requireTeamManager (Actor.mk 9 GlobalRole.admin) (Team.mk 0 []) =
      GuardResult.allow ∧
    requireProjectMember (Actor.mk 9 GlobalRole.admin)
      (Project.mk none 0 Visibility.visPrivate [] true) = GuardResult.allow ∧
    requireProjectManager (Actor.mk 9 GlobalRole.admin)
      (Project.mk none 0 Visibility.visPrivate [] true) = GuardResult.allow :=
  c4_admin_bypass (Actor.mk 9 GlobalRole.admin) (Team.mk 0 [])
    (Project.mk none 0 Visibility.visPrivate [] true) rfl

/-- `applyRoleUpdate` spelt out: the role is overwritten and the bundle
follows `roleUpdatedPermissions`. -/
lemma applyRoleUpdate_eq (m : TeamMember) (r : TeamRole) :
    applyRoleUpdate m r =
      TeamMember.mk m.user r (roleUpdatedPermissions m.permissions r) := by
  cases r <;> rfl

/-- Behaviour of `updateFirst` when the member list has pairwise-distinct
user ids and holds a record for the user: that record is rewritten, all
other records survive unchanged, and the length is preserved. -/
lemma updateFirst_spec (u : UserId) (r : TeamRole) (ms : List TeamMember)
    (hnd : (ms.map fun m => m.user).Nodup) (m0 : TeamMember)
    (h0 : m0 ∈ ms) (hu : m0.user = u) :
    applyRoleUpdate m0 r ∈ updateFirst u r ms ∧
    (∀ m ∈ ms, m.user ≠ u → m ∈ updateFirst u r ms) ∧
    (updateFirst u r ms).length = ms.length := by
  induction ms with
  | nil => cases h0
  | cons a rest ih =>
    rw [List.map_cons, List.nodup_cons] at hnd
    cases h0 with
    | head =>
      have hcond : (m0.user == u) = true := by simp [hu]
      refine ⟨?_, ?_, ?_⟩
      · simp only [updateFirst, if_pos hcond]
        exact List.mem_cons_self _ _
      · intro m hm hmu
        cases hm with
        | head => exact absurd hu hmu
        | tail _ hmrest =>
          simp only [updateFirst, if_pos hcond]
          exact List.mem_cons_of_mem _ hmrest
      · simp only [updateFirst, if_pos hcond, List.length_cons]
    | tail _ hrest =>
      have hau : a.user ≠ u := by
        intro he
        exact hnd.1 (he ▸ hu ▸ List.mem_map_of_mem (fun m => m.user) hrest)
      have hcond : ¬((a.user == u) = true) := by simp [hau]
      have ih2 := ih hnd.2 hrest
      refine ⟨?_, ?_, ?_⟩
      · simp only [updateFirst, if_neg hcond]
        exact List.mem_cons_of_mem _ ih2.1
      · intro m hm hmu
        cases hm with
        | head =>
          simp only [updateFirst, if_neg hcond]
          exact List.mem_cons_self _ _
        | tail _ hmrest =>
          simp only [updateFirst, if_neg hcond]
          exact List.mem_cons_of_mem _ (ih2.2.1 m hmrest hmu)
      · simp only [updateFirst, if_neg hcond, List.length_cons, ih2.2.2]

/-- C5 (counterexample): the claim asserts the permission bundle is
recomputed from `newRole` for every role, with `owner` mapped to all four
permissions true; but the recompute switch of `updateMemberRole` has no
`owner` case, so promoting a plain member to `owner` keeps the old
member-level bundle instead of granting the full bundle. -/
theorem c5_counterexample :
    controllerUpdateMemberRole
      (Team.mk 0 [TeamMember.mk 1 TeamRole.member
        (TeamPermissions.mk false false true false)]) 1 TeamRole.owner =
      MResult.ok (Team.mk 0 [TeamMember.mk 1 TeamRole.owner
        (TeamPermissions.mk false false true false)]) ∧
    TeamPermissions.mk false false true false ≠
      TeamPermissions.mk true true true true := by
  decide

/-- C5 (amended): `updateMemberRole` fails with `OwnerProtected` when the
target is the team owner (checked first), fails with `NotAMember` when the
target is not the owner and holds no membership record, and otherwise sets
the record's role to `newRole`, recomputing the bundle only for `manager`
(all four true) and `member` (only viewAllTasks true); for `newRole = owner`
the record keeps its previous bundle.  Other records are untouched.  Stated
under the per-user uniqueness invariant of the member list. -/
theorem c5_amended (t : Team) (u : UserId) (r : TeamRole)
    (hnd : (t.members.map fun m => m.user).Nodup) :
    (t.owner = u →
      controllerUpdateMemberRole t u r =
        MResult.error (CtrlError.mk 400 msgCannotChangeOwnerRole)) ∧
    (t.owner ≠ u → (∀ m ∈ t.members, m.user ≠ u) →
      controllerUpdateMemberRole t u r =
        MResult.error (CtrlError.mk 500 msgNotAMember)) ∧
    (t.owner ≠ u → ∀ m0 ∈ t.members, m0.user = u →
      ∃ t2, controllerUpdateMemberRole t u r = MResult.ok t2 ∧
        t2.owner = t.owner ∧
        TeamMember.mk u r (roleUpdatedPermissions m0.permissions r) ∈
          t2.members ∧
        (∀ m ∈ t.members, m.user ≠ u → m ∈ t2.members) ∧
        t2.members.length = t.members.length) := by
  refine ⟨?_, ?_, ?_⟩
  · intro h
    simp [controllerUpdateMemberRole, h]
  · intro hne hnone
    have hany : (t.members.any fun m => m.user == u) = false := by
      rw [List.any_eq_false]
      intro m hm
      simp [hnone m hm]
    simp [controllerUpdateMemberRole, Team.updateMemberRole, hne, hany]
  · intro hne m0 h0 hu
    have hany : (t.members.any fun m => m.user == u) = true := by
      rw [List.any_eq_true]
      exact ⟨m0, h0, by simp [hu]⟩
    have hspec := updateFirst_spec u r t.members hnd m0 h0 hu
    refine ⟨{ t with members := updateFirst u r t.members }, ?_, rfl, ?_, ?_, ?_⟩
    · simp [controllerUpdateMemberRole, Team.updateMemberRole, hne, hany]
    · have := hspec.1
      rw [applyRoleUpdate_eq, hu] at this
      exact this
    · exact hspec.2.1
    · exact hspec.2.2

/-- C5 (witness): promoting a plain member to `manager` succeeds and yields
the full bundle, while records for other users survive unchanged. -/
theorem c5_amended_witness :
    ∃ t2, controllerUpdateMemberRole
        (Team.mk 0 [TeamMember.mk 1 TeamRole.member
          (TeamPermissions.mk false false true false)]) 1 TeamRole.manager =
        MResult.ok t2 ∧
      t2.owner = 0 ∧
      TeamMember.mk 1 TeamRole.manager (TeamPermissions.mk true true true true) ∈
        t2.members ∧
      (∀ m ∈ (Team.mk 0 [TeamMember.mk 1 TeamRole.member
          (TeamPermissions.mk false false true false)]).members,
        m.user ≠ 1 → m ∈ t2.members) ∧
      t2.members.length = 1 :=
  (c5_amended
    (Team.mk 0 [TeamMember.mk 1 TeamRole.member
      (TeamPermissions.mk false false true false)]) 1 TeamRole.manager
    (by decide)).2.2 (by decide)
    (TeamMember.mk 1 TeamRole.member (TeamPermissions.mk false false true false))
    (by decide) rfl

/-- C6 (counterexample): the claim asserts projects survive team deletion
with their team reference cleared, but `deleteTeam` runs
`Project.deleteMany({team})`: the project that referenced the team is gone
from the store entirely. -/
theorem c6_counterexample :
    (AppState.mk [StoredProject.mk 7 (some 1)] []).projects =
      [StoredProject.mk 7 (some 1)] ∧
    (deleteTeamCascade (AppState.mk [StoredProject.mk 7 (some 1)] []) 1).projects =
      [] := by
  decide

/-- C6 (amended): deleting a team deletes every project that referenced it
(projects without that reference survive) and removes the team from every
user's denormalized membership list. -/
theorem c6_amended (s : AppState) (tid : TeamId) :
    (∀ p ∈ (deleteTeamCascade s tid).projects, p.team ≠ some tid ∧ p ∈ s.projects) ∧
    (∀ p ∈ s.projects, p.team ≠ some tid → p ∈ (deleteTeamCascade s tid).projects) ∧
    (∀ u ∈ (deleteTeamCascade s tid).users, ∀ e ∈ u.teams, e.team ≠ tid) := by
  refine ⟨?_, ?_, ?_⟩
  · intro p hp
    rw [deleteTeamCascade] at hp
    simp only [List.mem_filter] at hp
    refine ⟨?_, hp.1⟩
    have := hp.2
    simpa using this
  · intro p hp hne
    rw [deleteTeamCascade]
    simp only [List.mem_filter]
    exact ⟨hp, by simpa using hne⟩
  · intro u hu e he
    rw [deleteTeamCascade] at hu
    simp only [List.mem_map] at hu
    obtain ⟨u0, hu0, heq⟩ := hu
    rw [deleteTeamUserUpdate] at heq
    by_cases hany : (u0.teams.any fun e => e.team == tid) = true
    · rw [if_pos hany] at heq
      subst heq
      simp only [List.mem_filter] at he
      have := he.2
      simpa using this
    · rw [if_neg hany] at heq
      subst heq
      rw [Bool.not_eq_true, List.any_eq_false] at hany
      have := hany e he
      simpa using this

/-- C6 (witness): a project of another team survives the cascade. -/
theorem c6_amended_witness :
    StoredProject.mk 8 none ∈
      (deleteTeamCascade
        (AppState.mk [StoredProject.mk 7 (some 1), StoredProject.mk 8 none] []) 1).projects :=
  (c6_amended
    (AppState.mk [StoredProject.mk 7 (some 1), StoredProject.mk 8 none] []) 1).2.1
    (StoredProject.mk 8 none) (by decide) (by decide)

/-- C7: `removeMember` at the controller fails with `OwnerProtected` on the
team owner, and for any other user id removes every matching record; a user
id with no record is a silent no-op, so a second call with the same
non-owner id never raises and leaves the member set unchanged. -/
theorem c7_remove_idempotent (t : Team) (u : UserId) :
    (t.owner = u →
      controllerRemoveMember t u = MResult.error (CtrlError.mk 400 msgCannotRemoveOwner)) ∧
    (t.owner ≠ u →
      controllerRemoveMember t u = MResult.ok (t.removeMember u) ∧
      ((t.removeMember u).members.all fun m => !(m.user == u)) = true ∧
      controllerRemoveMember (t.removeMember u) u = MResult.ok (t.removeMember u) ∧
      (t.removeMember u).removeMember u = t.removeMember u) := by
  have hidem : (t.removeMember u).removeMember u = t.removeMember u := by
    simp only [Team.removeMember, List.filter_filter, Bool.and_self]
  constructor
  · intro h
    simp [controllerRemoveMember, h]
  · intro hne
    refine ⟨?_, ?_, ?_, hidem⟩
    · simp [controllerRemoveMember, hne]
    · rw [List.all_eq_true]
      intro m hm
      simp only [Team.removeMember, List.mem_filter] at hm
      exact hm.2
    · have howner : (t.removeMember u).owner = t.owner := rfl
      simp [controllerRemoveMember, howner, hne, hidem]

/-- C7 (witness): the owner is protected, and removing the sole non-owner
member twice succeeds both times with the same resulting team. -/
theorem c7_remove_idempotent_witness :
    controllerRemoveMember
      (Team.mk 0 [TeamMember.mk 1 TeamRole.member
        (TeamPermissions.mk false false true false)]) 0 =
      MResult.error (CtrlError.mk 400 msgCannotRemoveOwner) ∧
    controllerRemoveMember
      ((Team.mk 0 [TeamMember.mk 1 TeamRole.member
        (TeamPermissions.mk false false true false)]).removeMember 1) 1 =
      MResult.ok
        ((Team.mk 0 [TeamMember.mk 1 TeamRole.member
          (TeamPermissions.mk false false true false)]).removeMember 1) :=
  ⟨(c7_remove_idempotent
      (Team.mk 0 [TeamMember.mk 1 TeamRole.member
        (TeamPermissions.mk false false true false)]) 0).1 rfl,
   ((c7_remove_idempotent
      (Team.mk 0 [TeamMember.mk 1 TeamRole.member
        (TeamPermissions.mk false false true false)]) 1).2 (by decide)).2.2.1⟩

/-- C8: after a successful `addMember` for a user, a second `addMember` with
the same user fails with `AlreadyMember`, and the team produced by the first
call holds exactly one record for that user. -/
theorem c8_add_unique (t t1 : Team) (u : UserId) (r r2 : TeamRole)
    (h : t.addMember u r = MResult.ok t1) :
    t1.addMember u r2 = MResult.error msgAlreadyMember ∧
    t1.members.countP (fun m => m.user == u) = 1 := by
  by_cases him : t.isMember u = true
  · simp [Team.addMember, him] at h
  · simp only [Team.addMember, him, if_false, Bool.false_eq_true] at h
    rw [MResult.ok.injEq] at h
    subst h
    have hany : (t.members.any fun m => m.user == u) = false := by
      have := him
      simp only [Team.isMember, Bool.not_eq_true] at this ⊢
      exact this
    constructor
    · have hmem : (Team.mk t.owner
          (t.members ++ [TeamMember.mk u r (addMemberPermissions r)])).isMember u = true := by
        simp [Team.isMember, List.any_append]
      simp [Team.addMember, hmem]
    · have hz : t.members.countP (fun m => m.user == u) = 0 := by
        rw [List.countP_eq_zero]
        intro m hm
        have := List.any_eq_false.mp hany m hm
        simpa using this
      simp [List.countP_append, hz, List.countP_cons]

/-- C8 (witness): adding user 1 to an empty-membership team and adding them
again: the second call reports `AlreadyMember` and the team carries a single
record for user 1. -/
theorem c8_add_unique_witness :
    (Team.mk 0 [TeamMember.mk 1 TeamRole.member
      (TeamPermissions.mk false false true false)]).addMember 1 TeamRole.manager =
      MResult.error msgAlreadyMember ∧
    (Team.mk 0 [TeamMember.mk 1 TeamRole.member
      (TeamPermissions.mk false false true false)]).members.countP
      (fun m => m.user == 1) = 1 :=
  c8_add_unique (Team.mk 0 []) _ 1 TeamRole.member TeamRole.manager rfl

/-- C9: the model-level `Team.removeMember` never raises (it is a total
function) and strips every record matching the given id even when that id is
the team owner; the owner protection lives only in the controllers:
`removeMember` and `leaveTeam` both refuse the owner id. -/
theorem c9_model_remove_owner (t : Team) :
    ((t.removeMember t.owner).members.all fun m => !(m.user == t.owner)) = true ∧
    controllerRemoveMember t t.owner =
      MResult.error (CtrlError.mk 400 msgCannotRemoveOwner) ∧
    controllerLeaveTeam t t.owner =
      MResult.error (CtrlError.mk 400 msgOwnerCannotLeave) := by
  refine ⟨?_, ?_, ?_⟩
  · rw [List.all_eq_true]
    intro m hm
    simp only [Team.removeMember, List.mem_filter] at hm
    exact hm.2
  · simp [controllerRemoveMember]
  · simp [controllerLeaveTeam]

/-- C10: two projects identical except for `visibility` and `isArchived`
receive the same decision from both project guards, for every actor: neither
field influences authorization. -/
theorem c10_visibility_archived_irrelevant (a : Actor) (p : Project)
    (v1 v2 : Visibility) (b1 b2 : Bool) :
    requireProjectMember a { p with visibility := v1, isArchived := b1 } =
      requireProjectMember a { p with visibility := v2, isArchived := b2 } ∧
    requireProjectManager a { p with visibility := v1, isArchived := b1 } =
      requireProjectManager a { p with visibility := v2, isArchived := b2 } :=
  ⟨rfl, rfl⟩
